import Mathlib

/-!
Verification of the Adaware lemmatizer repository
(`lemmatizer/cosine_mlp.py` and `lemmatizer/lemmatizer.py`).

Matrices of row vectors are embedded as `List (List ℝ)`; numpy reductions
become list sums.  The nonlinearity, the external POS tagger, the word
vectorizer and the dictionary lemmatizer are opaque parameters, exactly as
the spec treats them (external collaborators).
-/

namespace Adaware

noncomputable section

/-- Row-vector dot product, `np.dot` restricted to a pair of rows
(the diagonal of `np.dot(X, Y.T)` is the list of row-wise dot products). -/
def dot (x y : List ℝ) : ℝ := (List.zipWith (· * ·) x y).sum

/-- One row of `mat_cosine_dist`: `prod / len1 / len2` with
`len1 = sqrt(dot(x,x))`, `len2 = sqrt(dot(y,y))` (source lines 31-38). -/
def cosRow (x y : List ℝ) : ℝ :=
  dot x y / Real.sqrt (dot x x) / Real.sqrt (dot y y)

/-- Embedding of `mat_cosine_dist(X, Y)` from `cosine_mlp.py`: the row-wise cosine values,
`np.divide(np.divide(prod, len1), len2)` per aligned row pair. -/
def mat_cosine_dist (X Y : List (List ℝ)) : List ℝ :=
  (X.zip Y).map (fun p => cosRow p.1 p.2)

/-- Embedding of `cms(preds, targets)` from `cosine_mlp.py` line 28:
`np.abs(np.sum(mat_cosine_dist(preds, targets))) / targets.shape[0]`. -/
def cms (preds targets : List (List ℝ)) : ℝ :=
  |(mat_cosine_dist preds targets).sum| / (targets.length : ℝ)

/-- Mean over rows of the absolute value of the row-wise cosine similarity.
This definition follows the SPEC's words ("mean absolute cosine similarity
across the batch"), to be compared against the source's `cms`. -/
def meanAbsCosine (preds targets : List (List ℝ)) : ℝ :=
  ((mat_cosine_dist preds targets).map (fun c => |c|)).sum / (targets.length : ℝ)

/-- Guarded-division variant of `mat_cosine_dist`: a division whose
denominator is zero is an error (`none`), modelling the numpy
divide-by-zero condition the spec flags. -/
def cosRowE (x y : List ℝ) : Option ℝ :=
  if Real.sqrt (dot x x) = 0 ∨ Real.sqrt (dot y y) = 0 then none
  else some (dot x y / Real.sqrt (dot x x) / Real.sqrt (dot y y))

/-- Collect the guarded per-row results, failing if any row fails. -/
def cosListE : List (List ℝ × List ℝ) → Option (List ℝ)
  | [] => some []
  | p :: rest =>
      match cosRowE p.1 p.2, cosListE rest with
      | some c, some cs => some (c :: cs)
      | _, _ => none

/-- Embedding of `mat_cosine_dist` with the per-row divisions guarded: `none` as soon as
any row of `X` or `Y` has zero norm. -/
def mat_cosine_distE (X Y : List (List ℝ)) : Option (List ℝ) :=
  cosListE (X.zip Y)

/-- Uniform scaling of a batch of row vectors, `c * M` in numpy. -/
def scaleMat (c : ℝ) (X : List (List ℝ)) : List (List ℝ) :=
  X.map (fun r => r.map (fun a => c * a))

-- ### Multi-layer perceptron (`build`, `cosine_mlp.py` lines 41-74)

/-- Consecutive layer-size pairs: `zip(layer_sizes[:-1], layer_sizes[1:])`. -/
def shapesOf (layer_sizes : List ℕ) : List (ℕ × ℕ) :=
  layer_sizes.dropLast.zip layer_sizes.tail

/-- Embedding of `num_weights = sum((m+1)*n for m, n in shapes)` (line 48). -/
def sumWeights (shapes : List (ℕ × ℕ)) : ℕ :=
  (shapes.map (fun p => (p.1 + 1) * p.2)).sum

/-- Embedding of `weights[:m*n].reshape((m, n))`: `m` rows of `n` consecutive entries. -/
def reshapeMat (w : List ℝ) (m n : ℕ) : List (List ℝ) :=
  (List.range m).map (fun i => (w.drop (i * n)).take n)

/-- Embedding of `unpack_layers(weights)`: the successive `(W, b)` pairs, consuming
`(m+1)*n` weights per shape pair (lines 50-55). -/
def unpack_layers : List (ℕ × ℕ) → List ℝ → List (List (List ℝ) × List ℝ)
  | [], _ => []
  | (m, n) :: rest, w =>
      (reshapeMat (w.take (m * n)) m n, (w.drop (m * n)).take n)
        :: unpack_layers rest (w.drop ((m + 1) * n))

/-- Column `j` of a matrix of rows. -/
def getCol (B : List (List ℝ)) (j : ℕ) : List ℝ := B.map (fun r => r.getD j 0)

/-- Embedding of `inputs @ W` for a weight matrix `W` with `n` columns. -/
def matMul (A B : List (List ℝ)) (n : ℕ) : List (List ℝ) :=
  A.map (fun r => (List.range n).map (fun j => dot r (getCol B j)))

/-- Broadcast addition of the bias row `b` to every row of `M`. -/
def addBias (M : List (List ℝ)) (b : List ℝ) : List (List ℝ) :=
  M.map (fun r => List.zipWith (· + ·) r b)

/-- Elementwise application of the nonlinearity to a matrix. -/
def mapMat (f : ℝ → ℝ) (M : List (List ℝ)) : List (List ℝ) := M.map (List.map f)

/-- The loop of `predictions` (lines 57-61): per layer,
`outputs = inputs @ W + b; inputs = nonlinearity(outputs)`, and the last
value of the `outputs` variable is returned after the loop. -/
def predLoop (f : ℝ → ℝ) :
    List (List (List ℝ) × List ℝ) → List (List ℝ) → List (List ℝ) → List (List ℝ)
  | [], _, outputs => outputs
  | (W, b) :: rest, inputs, _ =>
      predLoop f rest (mapMat f (addBias (matMul inputs W b.length) b))
        (addBias (matMul inputs W b.length) b)

/-- Embedding of `predictions(weights, inputs)` from `build`.  The initial accumulator `[]`
stands for the unbound Python `outputs` variable; it is returned only when
there are no layers at all (where the Python code would raise). -/
def predictions (f : ℝ → ℝ) (shapes : List (ℕ × ℕ)) (w : List ℝ)
    (inputs : List (List ℝ)) : List (List ℝ) :=
  predLoop f (unpack_layers shapes w) inputs []

/-- The triple returned by `build`. -/
structure MLP where
  pred : List ℝ → List (List ℝ) → List (List ℝ)
  logprob : List ℝ → List (List ℝ) → List (List ℝ) → ℝ
  num_weights : ℕ

/-- Embedding of `build(layer_sizes, weight_scale, noise_scale, nonlinearity)` (lines
41-74).  `weight_scale` and `noise_scale` occur only in a commented-out
alternative `logprob`; the active `logprob` is `log(cms(preds, targets))`. -/
def build (layer_sizes : List ℕ) (weight_scale noise_scale : ℝ)
    (f : ℝ → ℝ) : MLP where
  pred := fun w inputs => predictions f (shapesOf layer_sizes) w inputs
  logprob := fun w inputs targets =>
    Real.log (cms (predictions f (shapesOf layer_sizes) w inputs) targets)
  num_weights := sumWeights (shapesOf layer_sizes)

/-- Network application as the SPEC words it: affine map `inputs @ W + b`
followed by the nonlinearity at every layer except the output layer, whose
pre-activation value is the result. -/
def specPredict (f : ℝ → ℝ) :
    List (List (List ℝ) × List ℝ) → List (List ℝ) → List (List ℝ)
  | [], inputs => inputs
  | [(W, b)], inputs => addBias (matMul inputs W b.length) b
  | (W, b) :: l :: rest, inputs =>
      specPredict f (l :: rest) (mapMat f (addBias (matMul inputs W b.length) b))

-- ### `train_mlp` internals (`cosine_mlp.py` lines 77-145)

/-- Embedding of `np.sum(np.power(weights, 2))`. -/
def sumSq (w : List ℝ) : ℝ := (w.map (fun a => a ^ 2)).sum

/-- Embedding of `np.sum(np.abs(weights))`. -/
def sumAbs (w : List ℝ) : ℝ := (w.map (fun a => |a|)).sum

/-- Embedding of `int(np.ceil(tr_inputs.shape[0] / batch_size))` (line 94).  The file is
Python 2 without `from __future__ import division`, so `/` here is integer
floor division and the `ceil` is a no-op: this is `⌊N / batch_size⌋`. -/
def num_batches (tr_inputs : List (List ℝ)) (batch_size : ℕ) : ℕ :=
  tr_inputs.length / batch_size

/-- Python slice `l[a:b]` for `0 ≤ a ≤ b`. -/
def sliceL (l : List (List ℝ)) (a b : ℕ) : List (List ℝ) := (l.drop a).take (b - a)

/-- Layer sizes assembled in `train_mlp` (line 99): input width, the hidden
sizes, then output width. -/
def full_layer_sizes (ls : List ℕ) (tr_inputs tr_outputs : List (List ℝ)) : List ℕ :=
  (tr_inputs.headD []).length :: ls ++ [(tr_outputs.headD []).length]

/-- The training `objective(weights, iter)` of `train_mlp` (lines 104-113):
negated `logprob` on the batch slice `iter % num_batches`, plus the L2 and L1
penalty terms, in the source's order. -/
def objective (f : ℝ → ℝ) (ls : List ℕ) (tr_inputs tr_outputs : List (List ℝ))
    (batch_size : ℕ) (l1_lambda l2_lambda : ℝ) (weights : List ℝ) (iter : ℕ) : ℝ :=
  -(build (full_layer_sizes ls tr_inputs tr_outputs) 10 (1 / 10) f).logprob weights
      (sliceL tr_inputs (iter % num_batches tr_inputs batch_size * batch_size)
        ((iter % num_batches tr_inputs batch_size + 1) * batch_size))
      (sliceL tr_outputs (iter % num_batches tr_inputs batch_size * batch_size)
        ((iter % num_batches tr_inputs batch_size + 1) * batch_size))
    + l2_lambda * sumSq weights + l1_lambda * sumAbs weights

/-- Closed-form parameter count, written directly from the CLAIM's words as a
recursion over consecutive layer-size pairs `(m, n)`, adding `(m+1)*n`. -/
def closedFormWeights : List ℕ → ℕ
  | m :: n :: rest => (m + 1) * n + closedFormWeights (n :: rest)
  | _ => 0

-- ### `lemmatizer.py`: windowing featurizer (lines 126-152)

/-- Embedding of `window_featurizer(X, y, size)`.  With `s = size[0] + size[1] = 0` the
inputs are returned unchanged.  Otherwise `N - s` all-zero output rows are
allocated (widths `d*(s+1)` and `dy`), and the loop
`for i in range(size[0], N - size[1] - 1)` fills output row `r = i - size[0]`
with the concatenation `X[r] ‖ ... ‖ X[r+s]` and target `y[r + size[0]]`;
rows the loop never reaches stay all-zero. -/
def window_featurizer (X y : List (List ℝ)) (size : ℕ × ℕ) :
    List (List ℝ) × List (List ℝ) :=
  if size.1 + size.2 = 0 then (X, y)
  else
    ((List.range (X.length - (size.1 + size.2))).map (fun r =>
        if size.1 + r < X.length - size.2 - 1 then
          ((List.range (size.1 + size.2 + 1)).map (fun j => X.getD (r + j) [])).flatten
        else List.replicate ((X.headD []).length * (size.1 + size.2 + 1)) 0),
     (List.range (y.length - (size.1 + size.2))).map (fun r =>
        if size.1 + r < X.length - size.2 - 1 then y.getD (r + size.1) []
        else List.replicate (y.headD []).length 0))

-- ### `lemmatizer.py`: `prepare_sentence` (lines 51-76)

/-- Embedding of `prepare_sentence(words, pos_dict, vectorizer, lemmatizer, max_words)`
with `return_output=True`, returning the pair `(X, y)`.  The external
collaborators are opaque parameters: the whole-sentence POS tagger
(`pos_tag`), the coarse-POS mapping (`treebank_to_simple` composed with
`str`), the POS index dictionary, the word vectorizer and the dictionary
lemmatizer.  `X` is allocated as `max_words × 301` zeros and `y` as
`max_words × 300` zeros; rows `0 ≤ i < num_words` are overwritten with
`vectorizer(words[i])` (plus the POS index in the last column of `X`),
where `num_words = len(words) if len(words) <= max_words else max_words`,
defined below. -/
def prepare_num_words (words_len max_words : ℕ) : ℕ :=
  if words_len ≤ max_words then words_len else max_words

/-- Embedding of `lemmas` (line 64): each word's dictionary lemma, keyed by the coarse POS
obtained from the raw tag. -/
def prepare_lemmas {W T : Type} (tagger : List W → List T) (simple : T → T)
    (lemmatizer : W → T → W) (words : List W) : List W :=
  (words.zip ((tagger words).map simple)).map (fun p => lemmatizer p.1 p.2)

/-- Embedding of `prepare_sentence` itself: the pair `(X, y)` of padded matrices. -/
def prepare_sentence {W T : Type} [Inhabited W] [Inhabited T]
    (tagger : List W → List T) (simple : T → T) (pos_dict : T → ℝ)
    (vectorizer : W → List ℝ) (lemmatizer : W → T → W)
    (words : List W) (max_words : ℕ) : List (List ℝ) × List (List ℝ) :=
  ((List.range max_words).map (fun i =>
      if i < prepare_num_words words.length max_words then
        vectorizer (words.getD i default) ++ [pos_dict ((tagger words).getD i default)]
      else List.replicate 301 0),
   (List.range max_words).map (fun i =>
      if i < prepare_num_words words.length max_words then
        vectorizer ((prepare_lemmas tagger simple lemmatizer words).getD i default)
      else List.replicate 300 0))

-- ### `lemmatizer.py`: name resolution in `NeuralLemmatizer.lemmatize`

/-- The Python names relevant to resolving the body of
`NeuralLemmatizer.lemmatize` (lines 224-233). -/
inductive PyName
  | treebank_to_simple | pad_array | prepare_sentence | gen_dataset
  | window_featurizer | train_lemmatizer | NeuralLemmatizer
  | sys | cPickle | np | gensim_models | pos_tag | word_tokenize | wordnet
  | WordNetLemmatizer | batch_index_generator | split_data | nn_regressor
  | self | sentence | X | y | y_words
  | pos_dict | lstm | model
  deriving DecidableEq

/-- The module-level bindings of `lemmatizer.py`: its imports (lines 14-28)
and its top-level definitions. -/
def moduleGlobals : List PyName :=
  [.sys, .cPickle, .batch_index_generator, .split_data, .nn_regressor, .np,
   .gensim_models, .pos_tag, .word_tokenize, .wordnet, .WordNetLemmatizer,
   .treebank_to_simple, .pad_array, .prepare_sentence, .gen_dataset,
   .window_featurizer, .train_lemmatizer, .NeuralLemmatizer]

/-- The local scope of `lemmatize`: its parameters and the variables its body
assigns (`X`, `y`, `y_words`). -/
def lemmatizeLocalNames : List PyName := [.self, .sentence, .X, .y, .y_words]

/-- Everything a name load inside `lemmatize` can resolve against. -/
def lemmatizeScope : List PyName := lemmatizeLocalNames ++ moduleGlobals

/-- The names the body of `lemmatize` loads, in evaluation order: the first
statement loads `prepare_sentence`, `sentence` and `pos_dict`; the second
loads `lstm`, `self` and `X`; the third loads `model` and `y`; the `return`
loads `y_words`. -/
def lemmatizeBodyLoads : List PyName :=
  [.prepare_sentence, .sentence, .pos_dict, .lstm, .self, .X, .model, .y, .y_words]

/-- Embedding of `NeuralLemmatizer.lemmatize(sentence)` under Python name resolution: the
first load of a name bound in neither the local nor the module scope raises a
`NameError` carrying that name; only if every load resolves does the call
return a value (abstracted as an opaque `run` of the body). -/
def lemmatize {α β : Type} (run : α → β) (s : α) : Except PyName β :=
  match lemmatizeBodyLoads.find? (fun n => !(lemmatizeScope.contains n)) with
  | some n => Except.error n
  | none => Except.ok (run s)

-- ### helper lemmas about `dot`

theorem dot_nonneg_self (x : List ℝ) : 0 ≤ dot x x := by
  induction x with
  | nil => simp [dot]
  | cons a xs ih =>
      have h : dot (a :: xs) (a :: xs) = a * a + dot xs xs := by
        simp [dot, List.zipWith]
      rw [h]
      have := mul_self_nonneg a
      linarith

theorem dot_scale_left (c : ℝ) :
    ∀ x y : List ℝ, dot (x.map (fun a => c * a)) y = c * dot x y := by
  intro x
  induction x with
  | nil => intro y; simp [dot]
  | cons a xs ih =>
      intro y
      cases y with
      | nil => simp [dot]
      | cons b ys =>
          have h1 : dot ((a :: xs).map (fun a => c * a)) (b :: ys)
              = (c * a) * b + dot (xs.map (fun a => c * a)) ys := by
            simp [dot, List.zipWith]
          have h2 : dot (a :: xs) (b :: ys) = a * b + dot xs ys := by
            simp [dot, List.zipWith]
          rw [h1, h2, ih ys]; ring

theorem dot_scale_right (c : ℝ) :
    ∀ x y : List ℝ, dot x (y.map (fun a => c * a)) = c * dot x y := by
  intro x
  induction x with
  | nil => intro y; simp [dot]
  | cons a xs ih =>
      intro y
      cases y with
      | nil => simp [dot]
      | cons b ys =>
          have h1 : dot (a :: xs) ((b :: ys).map (fun a => c * a))
              = a * (c * b) + dot xs (ys.map (fun a => c * a)) := by
            simp [dot, List.zipWith]
          have h2 : dot (a :: xs) (b :: ys) = a * b + dot xs ys := by
            simp [dot, List.zipWith]
          rw [h1, h2, ih ys]; ring

theorem cosRow_scale_left (c : ℝ) (hc : 0 < c) (x y : List ℝ) :
    cosRow (x.map (fun a => c * a)) y = cosRow x y := by
  have hself : dot (x.map (fun a => c * a)) (x.map (fun a => c * a))
      = c ^ 2 * dot x x := by
    rw [dot_scale_left, dot_scale_right]; ring
  have hsq : Real.sqrt (c ^ 2 * dot x x) = c * Real.sqrt (dot x x) := by
    rw [Real.sqrt_mul (by positivity) (dot x x), Real.sqrt_sq hc.le]
  unfold cosRow
  rw [dot_scale_left, hself, hsq, mul_div_mul_left _ _ hc.ne']

theorem cosRow_scale_right (c : ℝ) (hc : 0 < c) (x y : List ℝ) :
    cosRow x (y.map (fun a => c * a)) = cosRow x y := by
  have hself : dot (y.map (fun a => c * a)) (y.map (fun a => c * a))
      = c ^ 2 * dot y y := by
    rw [dot_scale_left, dot_scale_right]; ring
  have hsq : Real.sqrt (c ^ 2 * dot y y) = c * Real.sqrt (dot y y) := by
    rw [Real.sqrt_mul (by positivity) (dot y y), Real.sqrt_sq hc.le]
  unfold cosRow
  rw [dot_scale_right, hself, hsq]
  rw [div_div, div_div, mul_comm (Real.sqrt (dot x x)) (c * Real.sqrt (dot y y)),
    mul_assoc, mul_div_mul_left _ _ hc.ne',
    mul_comm (Real.sqrt (dot y y)) (Real.sqrt (dot x x))]

theorem mat_cosine_dist_scale_left (c : ℝ) (hc : 0 < c) (X Y : List (List ℝ)) :
    mat_cosine_dist (scaleMat c X) Y = mat_cosine_dist X Y := by
  unfold mat_cosine_dist scaleMat
  rw [List.zip_map_left, List.map_map]
  refine List.map_congr_left ?_
  intro p _
  exact cosRow_scale_left c hc p.1 p.2

theorem mat_cosine_dist_scale_right (c : ℝ) (hc : 0 < c) (X Y : List (List ℝ)) :
    mat_cosine_dist X (scaleMat c Y) = mat_cosine_dist X Y := by
  unfold mat_cosine_dist scaleMat
  rw [List.zip_map_right, List.map_map]
  refine List.map_congr_left ?_
  intro p _
  exact cosRow_scale_right c hc p.1 p.2

-- ### C4

theorem sumWeights_shapesOf : ∀ ls : List ℕ, sumWeights (shapesOf ls) = closedFormWeights ls
  | [] => rfl
  | [_] => rfl
  | m :: n :: rest => by
      have hsh : shapesOf (m :: n :: rest) = (m, n) :: shapesOf (n :: rest) := rfl
      have ih := sumWeights_shapesOf (n :: rest)
      rw [hsh, closedFormWeights]
      simp only [sumWeights, List.map_cons, List.sum_cons] at *
      rw [ih]

/-- Claim C4: for every layer spec with at least 2 entries, the
`num_weights` returned by `build` equals the closed-form sum of `(m+1)*n`
over consecutive layer-size pairs; in particular `[4,3,2]` gives 23. -/
theorem claim_C4 :
    (∀ (ls : List ℕ) (ws ns : ℝ) (f : ℝ → ℝ), 2 ≤ ls.length →
      (build ls ws ns f).num_weights = closedFormWeights ls) ∧
    (build [4, 3, 2] 10 (1 / 10) (fun a => a)).num_weights = 23 := by
  constructor
  · intro ls ws ns f _
    exact sumWeights_shapesOf ls
  · rfl

/-- Witness for C4 at the layer spec `[4,3,2]`. -/
theorem claim_C4_witness :
    (build [4, 3, 2] (10 : ℝ) (1 / 10) (fun a => a)).num_weights
      = closedFormWeights [4, 3, 2] :=
  claim_C4.1 [4, 3, 2] 10 (1 / 10) (fun a => a) (by norm_num)

-- ### C10

/-- Claim C10: `weight_scale` and `noise_scale` have no effect on any of the
three results of `build`: the two prediction functions agree on every
`(weights, inputs)`, the two logprob functions agree on every
`(weights, inputs, targets)`, and the parameter counts coincide. -/
theorem claim_C10 (ls : List ℕ) (f : ℝ → ℝ) (ws1 ns1 ws2 ns2 : ℝ) :
    (∀ w inputs, (build ls ws1 ns1 f).pred w inputs
        = (build ls ws2 ns2 f).pred w inputs) ∧
    (∀ w inputs targets, (build ls ws1 ns1 f).logprob w inputs targets
        = (build ls ws2 ns2 f).logprob w inputs targets) ∧
    (build ls ws1 ns1 f).num_weights = (build ls ws2 ns2 f).num_weights :=
  ⟨fun _ _ => rfl, fun _ _ _ => rfl, rfl⟩

-- ### C5

/-- Claim C5: for every weight vector and iteration index, the training
objective of `train_mlp` equals the negated `logprob` of the network built
there, evaluated on the rows `idx*batch_size` up to `(idx+1)*batch_size` of
the training data where `idx = iter % num_batches`, plus `l1_lambda` times
the sum of absolute weights, plus `l2_lambda` times the sum of squared
weights. -/
theorem claim_C5 (f : ℝ → ℝ) (ls : List ℕ) (tr_inputs tr_outputs : List (List ℝ))
    (batch_size : ℕ) (l1_lambda l2_lambda : ℝ) (weights : List ℝ) (iter : ℕ)
    (hnb : 0 < num_batches tr_inputs batch_size) :
    objective f ls tr_inputs tr_outputs batch_size l1_lambda l2_lambda weights iter
      = -(build (full_layer_sizes ls tr_inputs tr_outputs) 10 (1 / 10) f).logprob
            weights
            ((tr_inputs.drop (iter % num_batches tr_inputs batch_size * batch_size)).take
              batch_size)
            ((tr_outputs.drop (iter % num_batches tr_inputs batch_size * batch_size)).take
              batch_size)
        + l1_lambda * sumAbs weights + l2_lambda * sumSq weights := by
  have hspan : ∀ i : ℕ, (i + 1) * batch_size - i * batch_size = batch_size := by
    intro i
    rw [add_mul, one_mul, Nat.add_sub_cancel_left]
  rw [objective, sliceL, sliceL, hspan]
  ring

/-- Witness for C5 at a concrete one-row dataset with batch size 1. -/
theorem claim_C5_witness :
    objective (fun a => a) [] [[(1 : ℝ)]] [[(1 : ℝ)]] 1 0 0 [] 0
      = -(build (full_layer_sizes [] [[(1 : ℝ)]] [[(1 : ℝ)]]) 10 (1 / 10)
            (fun a => a)).logprob []
            (([[(1 : ℝ)]].drop (0 % num_batches [[(1 : ℝ)]] 1 * 1)).take 1)
            (([[(1 : ℝ)]].drop (0 % num_batches [[(1 : ℝ)]] 1 * 1)).take 1)
        + 0 * sumAbs [] + 0 * sumSq [] :=
  claim_C5 (fun a => a) [] [[(1 : ℝ)]] [[(1 : ℝ)]] 1 0 0 [] 0
    (by norm_num [num_batches])

-- ### C3

theorem predLoop_eq_specPredict (f : ℝ → ℝ) :
    ∀ (layers : List (List (List ℝ) × List ℝ)) (inputs o : List (List ℝ)),
      layers ≠ [] → predLoop f layers inputs o = specPredict f layers inputs
  | [], _, _, h => absurd rfl h
  | [(W, b)], inputs, o, _ => by
      simp [predLoop, specPredict]
  | (W, b) :: (W2, b2) :: rest, inputs, o, _ => by
      have ih := predLoop_eq_specPredict f ((W2, b2) :: rest)
        (mapMat f (addBias (matMul inputs W b.length) b))
        (addBias (matMul inputs W b.length) b) (by simp)
      simp only [predLoop, specPredict]
      exact ih

theorem length_addBias_matMul (inputs W : List (List ℝ)) (b : List ℝ) :
    (addBias (matMul inputs W b.length) b).length = inputs.length := by
  simp [addBias, matMul]

theorem mem_addBias_matMul_length (inputs W : List (List ℝ)) (b : List ℝ) :
    ∀ r ∈ addBias (matMul inputs W b.length) b, r.length = b.length := by
  intro r hr
  simp only [addBias, matMul, List.mem_map] at hr
  obtain ⟨r1, hr1, rfl⟩ := hr
  obtain ⟨r0, _, rfl⟩ := hr1
  simp [List.length_zipWith]

theorem predLoop_length (f : ℝ → ℝ) :
    ∀ (layers : List (List (List ℝ) × List ℝ)) (inputs o : List (List ℝ)),
      layers ≠ [] → (predLoop f layers inputs o).length = inputs.length
  | [], _, _, h => absurd rfl h
  | [(W, b)], inputs, o, _ => by
      simp [predLoop, addBias, matMul]
  | (W, b) :: (W2, b2) :: rest, inputs, o, _ => by
      have ih := predLoop_length f ((W2, b2) :: rest)
        (mapMat f (addBias (matMul inputs W b.length) b))
        (addBias (matMul inputs W b.length) b) (by simp)
      have hstep : predLoop f ((W, b) :: (W2, b2) :: rest) inputs o
          = predLoop f ((W2, b2) :: rest)
              (mapMat f (addBias (matMul inputs W b.length) b))
              (addBias (matMul inputs W b.length) b) := rfl
      rw [hstep, ih]
      simp [mapMat, addBias, matMul]

theorem predLoop_width (f : ℝ → ℝ) :
    ∀ (layers : List (List (List ℝ) × List ℝ)) (W : List (List ℝ)) (b : List ℝ)
      (inputs o : List (List ℝ)),
      layers.getLast? = some (W, b) →
      ∀ r ∈ predLoop f layers inputs o, r.length = b.length
  | [], _, _, _, _, h => by simp at h
  | [(W0, b0)], W, b, inputs, o, h => by
      rw [List.getLast?_singleton] at h
      have hb : b0 = b := (Prod.mk.injEq _ _ _ _ ▸ Option.some.inj h).2
      intro r hr
      have hr2 : r ∈ addBias (matMul inputs W0 b0.length) b0 := by
        simpa [predLoop] using hr
      rw [← hb]
      exact mem_addBias_matMul_length inputs W0 b0 r hr2
  | (W1, b1) :: (W2, b2) :: rest, W, b, inputs, o, h => by
      rw [List.getLast?_cons_cons] at h
      intro r hr
      have hr2 : r ∈ predLoop f ((W2, b2) :: rest)
          (mapMat f (addBias (matMul inputs W1 b1.length) b1))
          (addBias (matMul inputs W1 b1.length) b1) := by
        simpa [predLoop] using hr
      exact predLoop_width f ((W2, b2) :: rest) W b _ _ h r hr2

theorem unpack_biases : ∀ (shapes : List (ℕ × ℕ)) (w : List ℝ),
    w.length = sumWeights shapes →
    (unpack_layers shapes w).map (fun p => p.2.length) = shapes.map Prod.snd
  | [], _, _ => rfl
  | (m, n) :: rest, w, hw => by
      have hS : w.length = (m + 1) * n + sumWeights rest := by
        simpa [sumWeights] using hw
      have hmn : (m + 1) * n = m * n + n := by ring
      have hb : ((w.drop (m * n)).take n).length = n := by
        rw [List.length_take, List.length_drop, hS, hmn, Nat.add_assoc,
          Nat.add_sub_cancel_left]
        exact Nat.min_eq_left (Nat.le_add_right n _)
      have hlen2 : (w.drop ((m + 1) * n)).length = sumWeights rest := by
        rw [List.length_drop, hS, Nat.add_sub_cancel_left]
      have hrest := unpack_biases rest (w.drop ((m + 1) * n)) hlen2
      simp only [unpack_layers, List.map_cons, hb, hrest]

/-- Claim C3: for a layer spec with at least 2 entries, a weight vector of
length `num_weights` and inputs of width `layer_sizes[0]`, the `predict`
function of `build` applies `inputs @ W + b` then the nonlinearity at every
layer except the last, whose pre-activation output is returned
(`specPredict`), and the result has `inputs.length` rows, each of width
`layer_sizes[-1]`. -/
theorem claim_C3 (ls : List ℕ) (ws ns : ℝ) (f : ℝ → ℝ) (w : List ℝ)
    (inputs : List (List ℝ))
    (h2 : 2 ≤ ls.length)
    (hw : w.length = (build ls ws ns f).num_weights)
    (hin : ∀ r ∈ inputs, r.length = ls.headD 0) :
    (build ls ws ns f).pred w inputs
        = specPredict f (unpack_layers (shapesOf ls) w) inputs ∧
    ((build ls ws ns f).pred w inputs).length = inputs.length ∧
    ∀ r ∈ (build ls ws ns f).pred w inputs, r.length = ls.getLastD 0 := by
  obtain ⟨a, c, rest, rfl⟩ : ∃ a c rest, ls = a :: c :: rest := by
    cases ls with
    | nil => simp at h2
    | cons a tl =>
        cases tl with
        | nil => simp at h2
        | cons c rest => exact ⟨a, c, rest, rfl⟩
  have hsh : shapesOf (a :: c :: rest) = (a, c) :: shapesOf (c :: rest) := rfl
  have hne : unpack_layers (shapesOf (a :: c :: rest)) w ≠ [] := by
    rw [hsh]
    simp [unpack_layers]
  have hpred : (build (a :: c :: rest) ws ns f).pred w inputs
      = predLoop f (unpack_layers (shapesOf (a :: c :: rest)) w) inputs [] := rfl
  refine ⟨?_, ?_, ?_⟩
  · rw [hpred]
    exact predLoop_eq_specPredict f _ inputs [] hne
  · rw [hpred]
    exact predLoop_length f _ inputs [] hne
  · have hmap := unpack_biases (shapesOf (a :: c :: rest)) w hw
    have htail : (shapesOf (a :: c :: rest)).map Prod.snd = c :: rest := by
      unfold shapesOf
      refine List.map_snd_zip _ _ (le_of_eq ?_)
      rw [List.length_tail, List.length_dropLast]
    rw [htail] at hmap
    have hlast : ((unpack_layers (shapesOf (a :: c :: rest)) w).map
        (fun p => p.2.length)).getLast? = (c :: rest).getLast? := by
      rw [hmap]
    rw [List.getLast?_map] at hlast
    have hcr : ∃ v, (c :: rest).getLast? = some v := by
      cases h : (c :: rest).getLast? with
      | none => simp [List.getLast?_eq_none_iff] at h
      | some v => exact ⟨v, rfl⟩
    obtain ⟨v, hv⟩ := hcr
    rw [hv] at hlast
    cases hup : (unpack_layers (shapesOf (a :: c :: rest)) w).getLast? with
    | none => rw [hup] at hlast; simp at hlast
    | some p =>
        rw [hup] at hlast
        have hplen : p.2.length = v := by simpa using hlast
        have hgd : (a :: c :: rest).getLastD 0 = v := by
          rw [List.getLastD_eq_getLast?, List.getLast?_cons_cons, hv]
          rfl
        intro r hr
        rw [hpred] at hr
        rw [hgd, ← hplen]
        exact predLoop_width f _ p.1 p.2 inputs [] (by rw [hup]) r hr

/-- Witness for C3 at the layer spec `[1,1]`, `weights = [2,3]`,
`inputs = [[5]]`, identity nonlinearity. -/
theorem claim_C3_witness :
    (build [1, 1] (10 : ℝ) (1 / 10) (fun x => x)).pred [2, 3] [[(5 : ℝ)]]
        = specPredict (fun x => x) (unpack_layers (shapesOf [1, 1]) [2, 3]) [[(5 : ℝ)]] ∧
    ((build [1, 1] (10 : ℝ) (1 / 10) (fun x => x)).pred [2, 3] [[(5 : ℝ)]]).length
        = [[(5 : ℝ)]].length ∧
    ∀ r ∈ (build [1, 1] (10 : ℝ) (1 / 10) (fun x => x)).pred [2, 3] [[(5 : ℝ)]],
      r.length = [1, 1].getLastD 0 := by
  refine claim_C3 [1, 1] 10 (1 / 10) (fun x => x) [2, 3] [[(5 : ℝ)]]
    (by norm_num) (by norm_num [build, sumWeights, shapesOf]) ?_
  intro r hr
  simp only [List.mem_singleton] at hr
  subst hr
  rfl

-- ### C1

/-- Claim C1 counterexample: at `preds = [[1],[-1]]`, `targets = [[1],[1]]`
(equal shape, non-empty, all rows of nonzero norm) the source's `cms` is 0
while the mean of the absolute row-wise cosine similarities is 1: `cms` takes
the absolute value of the SUM, not a sum of absolute values. -/
theorem claim_C1_counterexample :
    cms [[(1 : ℝ)], [-1]] [[(1 : ℝ)], [1]]
      ≠ meanAbsCosine [[(1 : ℝ)], [-1]] [[(1 : ℝ)], [1]] := by
  have h1 : dot [(1 : ℝ)] [(1 : ℝ)] = 1 := by norm_num [dot]
  have h2 : dot [(-1 : ℝ)] [(-1 : ℝ)] = 1 := by norm_num [dot]
  have h3 : dot [(-1 : ℝ)] [(1 : ℝ)] = -1 := by norm_num [dot]
  simp only [cms, meanAbsCosine, mat_cosine_dist, cosRow, List.zip_cons_cons,
    List.zip_nil_right, List.map_cons, List.map_nil, h1, h2, h3]
  rw [Real.sqrt_one]
  norm_num

/-- Claim C1 (amended): under the claim's preconditions, `cms(preds, targets)`
equals the absolute value of the MEAN over rows of the row-wise cosine
similarity (the claim's "mean of the absolute values" is refuted by the
counterexample; only the placement of the absolute value changes). -/
theorem claim_C1_amended (preds targets : List (List ℝ))
    (hlen : preds.length = targets.length) (hne : targets ≠ [])
    (hp : ∀ x ∈ preds, Real.sqrt (dot x x) ≠ 0)
    (ht : ∀ y ∈ targets, Real.sqrt (dot y y) ≠ 0) :
    cms preds targets
      = |(mat_cosine_dist preds targets).sum / (targets.length : ℝ)| := by
  rw [cms, abs_div, abs_of_nonneg (by positivity : (0 : ℝ) ≤ (targets.length : ℝ))]

/-- Witness for the amended C1 at a concrete input. -/
theorem claim_C1_amended_witness :
    cms [[(1 : ℝ)]] [[(1 : ℝ)]]
      = |(mat_cosine_dist [[(1 : ℝ)]] [[(1 : ℝ)]]).sum / (([[(1 : ℝ)]].length : ℕ) : ℝ)| := by
  refine claim_C1_amended [[(1 : ℝ)]] [[(1 : ℝ)]] rfl (by simp) ?_ ?_ <;>
    · intro x hx
      simp only [List.mem_singleton] at hx
      subst hx
      norm_num [dot, Real.sqrt_one]

-- ### C7

/-- Claim C7: in `mat_cosine_dist` the division by a zero row norm is
reachable (a zero row makes the guarded version fail), and under the
precondition that every row of both matrices has nonzero norm the guarded
version succeeds and agrees row-for-row with the unguarded computation. -/
theorem claim_C7 :
    mat_cosine_distE [[(0 : ℝ)]] [[(1 : ℝ)]] = none ∧
    ∀ X Y : List (List ℝ),
      (∀ x ∈ X, Real.sqrt (dot x x) ≠ 0) →
      (∀ y ∈ Y, Real.sqrt (dot y y) ≠ 0) →
      mat_cosine_distE X Y = some (mat_cosine_dist X Y) := by
  constructor
  · simp [mat_cosine_distE, cosListE, cosRowE, dot, Real.sqrt_zero]
  · intro X
    induction X with
    | nil => intro Y _ _; simp [mat_cosine_distE, cosListE, mat_cosine_dist]
    | cons x xs ih =>
        intro Y hX hY
        cases Y with
        | nil => simp [mat_cosine_distE, cosListE, mat_cosine_dist]
        | cons y ys =>
            have hx : Real.sqrt (dot x x) ≠ 0 := hX x (by simp)
            have hy : Real.sqrt (dot y y) ≠ 0 := hY y (by simp)
            have hrest := ih ys (fun a ha => hX a (by simp [ha]))
              (fun a ha => hY a (by simp [ha]))
            simp only [mat_cosine_distE, List.zip_cons_cons, cosListE]
            rw [show cosRowE x y = some (cosRow x y) by
              simp [cosRowE, cosRow, hx, hy]]
            simp only [mat_cosine_distE, List.zip] at hrest
            rw [hrest]
            simp [mat_cosine_dist]

/-- Witness for C7's guarded part at a concrete input with nonzero norms. -/
theorem claim_C7_witness :
    mat_cosine_distE [[(1 : ℝ)]] [[(1 : ℝ)]]
      = some (mat_cosine_dist [[(1 : ℝ)]] [[(1 : ℝ)]]) := by
  refine claim_C7.2 [[(1 : ℝ)]] [[(1 : ℝ)]] ?_ ?_ <;>
    · intro x hx
      simp only [List.mem_singleton] at hx
      subst hx
      norm_num [dot, Real.sqrt_one]

-- ### C9

/-- Claim C9: `cms` is invariant under uniform positive scaling of either
batch (with the claim's preconditions: equal row counts, non-empty, all rows
of nonzero norm, positive scale factor). -/
theorem claim_C9 (preds targets : List (List ℝ)) (c : ℝ) (hc : 0 < c)
    (hlen : preds.length = targets.length) (hne : targets ≠ [])
    (hp : ∀ x ∈ preds, Real.sqrt (dot x x) ≠ 0)
    (ht : ∀ y ∈ targets, Real.sqrt (dot y y) ≠ 0) :
    cms (scaleMat c preds) targets = cms preds targets ∧
    cms preds (scaleMat c targets) = cms preds targets := by
  constructor
  · rw [cms, mat_cosine_dist_scale_left c hc, cms]
  · rw [cms, mat_cosine_dist_scale_right c hc, cms]
    simp [scaleMat]

/-- Witness for C9 at a concrete input with scale factor 2. -/
theorem claim_C9_witness :
    cms (scaleMat 2 [[(1 : ℝ)]]) [[(1 : ℝ)]] = cms [[(1 : ℝ)]] [[(1 : ℝ)]] ∧
    cms [[(1 : ℝ)]] (scaleMat 2 [[(1 : ℝ)]]) = cms [[(1 : ℝ)]] [[(1 : ℝ)]] := by
  refine claim_C9 [[(1 : ℝ)]] [[(1 : ℝ)]] 2 (by norm_num) rfl (by simp) ?_ ?_ <;>
    · intro x hx
      simp only [List.mem_singleton] at hx
      subst hx
      norm_num [dot, Real.sqrt_one]

-- ### C2

/-- Claim C2 (failing input): at `X = [[1],[2],[3]]`, `y = [[4],[5],[6]]`,
`size = [1,1]` the claim says the single output row is the concatenation
`X[0] ‖ X[1] ‖ X[2] = [1,2,3]` with target `y[1] = [5]`, but the code's loop
`range(size[0], N - size[1] - 1)` stops one short of the last interior
timestep, so the allocated row is never filled: both outputs stay all-zero. -/
theorem claim_C2_eval :
    window_featurizer [[(1 : ℝ)], [2], [3]] [[(4 : ℝ)], [5], [6]] (1, 1)
      = ([[0, 0, 0]], [[0]]) := by
  norm_num [window_featurizer, List.replicate_succ]

-- ### C6

theorem getD_map_range {α : Type} (g : ℕ → α) (n i : ℕ) (d : α) (h : i < n) :
    ((List.range n).map g).getD i d = g i := by
  rw [List.getD_eq_getElem?_getD, List.getElem?_map, List.getElem?_range h]
  rfl

/-- Claim C6: when the sentence is longer than `max_words`, `prepare_sentence`
returns exactly `max_words` rows, every one filled from the corresponding
token (the tokens past `max_words` get no row); when the sentence has
`k < max_words` tokens, rows `k` through `max_words - 1` of both `X` and `y`
are all-zero. -/
theorem claim_C6 {W T : Type} [Inhabited W] [Inhabited T]
    (tagger : List W → List T) (simple : T → T) (pos_dict : T → ℝ)
    (vectorizer : W → List ℝ) (lemmatizer : W → T → W)
    (words : List W) (max_words : ℕ) :
    (max_words < words.length →
      (prepare_sentence tagger simple pos_dict vectorizer lemmatizer
        words max_words).1.length = max_words ∧
      (prepare_sentence tagger simple pos_dict vectorizer lemmatizer
        words max_words).2.length = max_words ∧
      ∀ i, i < max_words →
        (prepare_sentence tagger simple pos_dict vectorizer lemmatizer
            words max_words).1.getD i []
          = vectorizer (words.getD i default)
              ++ [pos_dict ((tagger words).getD i default)]) ∧
    (words.length < max_words →
      ∀ i, words.length ≤ i → i < max_words →
        (prepare_sentence tagger simple pos_dict vectorizer lemmatizer
            words max_words).1.getD i [] = List.replicate 301 0 ∧
        (prepare_sentence tagger simple pos_dict vectorizer lemmatizer
            words max_words).2.getD i [] = List.replicate 300 0) := by
  constructor
  · intro hlong
    have hnw : prepare_num_words words.length max_words = max_words := by
      rw [prepare_num_words, if_neg (by omega)]
    refine ⟨?_, ?_, ?_⟩
    · show ((List.range max_words).map _).length = max_words
      rw [List.length_map, List.length_range]
    · show ((List.range max_words).map _).length = max_words
      rw [List.length_map, List.length_range]
    intro i hi
    show ((List.range max_words).map (fun i =>
        if i < prepare_num_words words.length max_words then
          vectorizer (words.getD i default)
            ++ [pos_dict ((tagger words).getD i default)]
        else List.replicate 301 0)).getD i [] = _
    rw [getD_map_range _ _ _ _ hi, hnw, if_pos hi]
  · intro hshort i hki hi
    have hnw : prepare_num_words words.length max_words = words.length := by
      rw [prepare_num_words, if_pos (le_of_lt hshort)]
    constructor
    · show ((List.range max_words).map (fun i =>
          if i < prepare_num_words words.length max_words then
            vectorizer (words.getD i default)
              ++ [pos_dict ((tagger words).getD i default)]
          else List.replicate 301 0)).getD i [] = _
      rw [getD_map_range _ _ _ _ hi, hnw, if_neg (by omega)]
    · show ((List.range max_words).map (fun i =>
          if i < prepare_num_words words.length max_words then
            vectorizer ((prepare_lemmas tagger simple lemmatizer words).getD i default)
          else List.replicate 300 0)).getD i [] = _
      rw [getD_map_range _ _ _ _ hi, hnw, if_neg (by omega)]

/-- Witness for C6: a 3-token sentence with `max_words = 2` fills exactly 2
rows, and a 1-token sentence with `max_words = 2` leaves row 1 all-zero. -/
theorem claim_C6_witness :
    (prepare_sentence (fun l : List ℕ => l.map (fun _ => (0 : ℕ))) (fun t => t)
        (fun t => (t : ℝ)) (fun a => [(a : ℝ)]) (fun a _ => a)
        [3, 4, 5] 2).1.length = 2 ∧
    (prepare_sentence (fun l : List ℕ => l.map (fun _ => (0 : ℕ))) (fun t => t)
        (fun t => (t : ℝ)) (fun a => [(a : ℝ)]) (fun a _ => a)
        [3] 2).1.getD 1 [] = List.replicate 301 0 := by
  constructor
  · exact ((claim_C6 (fun l : List ℕ => l.map (fun _ => (0 : ℕ))) (fun t => t)
      (fun t => (t : ℝ)) (fun a => [(a : ℝ)]) (fun a _ => a) [3, 4, 5] 2).1
      (by norm_num)).1
  · exact ((claim_C6 (fun l : List ℕ => l.map (fun _ => (0 : ℕ))) (fun t => t)
      (fun t => (t : ℝ)) (fun a => [(a : ℝ)]) (fun a _ => a) [3] 2).2
      (by norm_num) 1 (by norm_num) (by norm_num)).1

-- ### C8

/-- Claim C8: for every input sentence, `NeuralLemmatizer.lemmatize` raises a
name-resolution error before producing a result — the first statement already
loads `pos_dict`, which (like `lstm` and `model`) is bound in neither the
method's local scope nor the module scope — and it never returns normally. -/
theorem claim_C8 :
    (∀ (α β : Type) (run : α → β) (s : α),
      lemmatize run s = Except.error PyName.pos_dict) ∧
    PyName.pos_dict ∉ lemmatizeScope ∧
    PyName.lstm ∉ lemmatizeScope ∧
    PyName.model ∉ lemmatizeScope ∧
    (∀ (α β : Type) (run : α → β) (s : α) (r : β),
      lemmatize run s ≠ Except.ok r) := by
  have hfind : lemmatizeBodyLoads.find? (fun n => !(lemmatizeScope.contains n))
      = some PyName.pos_dict := by decide
  refine ⟨?_, by decide, by decide, by decide, ?_⟩
  · intro α β run s
    unfold lemmatize
    rw [hfind]
  · intro α β run s r h
    unfold lemmatize at h
    rw [hfind] at h
    exact Except.noConfusion h

end

end Adaware
